import Mathlib

/-!
Verification of the user-switcher subsystem of the Kiwi Menu shell extension
(`src/userSwitcher.js`), as a shallow embedding in Lean 4.

The embedding follows the source file closely:
* account records are the raw records returned by the account service,
  with the fields the code reads (`is_loaded`, `get_uid`, `get_user_name`,
  `get_real_name`, `system_account`);
* D-Bus interactions are modelled by an explicit environment `DBusEnv`
  describing the outcome of every call the code can make: proxy creation,
  `ListSessions`, the per-session `Class` and `Active` property reads
  (`none` models both an unresolvable property and a caught exception,
  since the code folds both into `null`), and `ActivateSession` success;
* the JavaScript `Map` of `_getSessionInfo` is an insertion-ordered
  association list, the `Set` of logged-in users an ordered list without
  duplicates;
* the stable `Array.prototype.sort` (stable per ECMA-262) is modelled by a
  stable insertion sort over the same comparator.
-/

/-- A raw record of the account service, with the fields read by
`countRealUsers` and `_collectVisibleUsers`.  `uid` is the integer parsed
from `get_uid()`; `username`/`realName` use the empty string for a missing
(falsy) value, matching the `!username` checks of the source. -/
structure AccountRecord where
  is_loaded : Bool
  uid : Int
  username : String
  realName : String
  system_account : Bool
deriving DecidableEq

/-- The account manager as seen by the code: the `is_loaded` flag and the
result of `list_users()`. -/
structure UserManager where
  is_loaded : Bool
  users : List AccountRecord
deriving DecidableEq

/-- `MINIMUM_VISIBLE_UID` from the source. -/
def MINIMUM_VISIBLE_UID : Int := 1000

/-- Predicate of the counting loop body of `countRealUsers`: the record is
loaded, has a username, and satisfies `uid >= MINIMUM_VISIBLE_UID` with
`system_account` unset.  (With `uid` already an integer the
`Number.isFinite` guard of the source is always satisfied.) -/
def isCountedRealUser (u : AccountRecord) : Bool :=
  u.is_loaded && !(u.username = "") &&
    decide (MINIMUM_VISIBLE_UID ≤ u.uid) && !u.system_account

/-- `countRealUsers(userManager)`: 0 when the manager is absent or not
loaded, else the number of records passing `isCountedRealUser`. -/
def countRealUsers (userManager : Option UserManager) : Nat :=
  match userManager with
  | none => 0
  | some m =>
    if !m.is_loaded then 0
    else (m.users.filter isCountedRealUser).length

/-- Side effect of one `_updateVisibility` run: mount the switcher button,
destroy it, or leave it alone. -/
inductive MountAction where
  | mount
  | unmount
  | keep
deriving DecidableEq

/-- `UserSwitcherController._updateVisibility`: from the mounted flag
(`_userSwitcher !== null`) and the manager, compute the new mounted flag
and the side effect performed. -/
def _updateVisibility (userManager : Option UserManager) (mounted : Bool) :
    Bool × MountAction :=
  let realUserCount := countRealUsers userManager
  let shouldShow : Bool := decide (realUserCount > 1)
  if shouldShow && !mounted then (true, .mount)
  else if !shouldShow && mounted then (false, .unmount)
  else (mounted, .keep)

/-- Run the controller from its initial state (`_userSwitcher = null`,
Hidden) through a sequence of directory change events, each carrying the
manager state observed at that event; collect the side effects. -/
def runVisibility (events : List (Option UserManager)) : Bool × List MountAction :=
  events.foldl
    (fun st ev =>
      let r := _updateVisibility ev st.1
      (r.1, st.2 ++ [r.2]))
    (false, [])

/-! ## Session model (`org.freedesktop.login1`) -/

/-- One tuple of the `ListSessions` reply:
`(sessionId, uid, userName, seat, sessionObjectPath)`.  The uid component
is never read by the code, so it is omitted.  `sessionPath` is the object
path after the array unwrapping of the source. -/
structure RawSession where
  sessionId : String
  userName : String
  seat : String
  sessionPath : String
deriving DecidableEq

/-- Outcome environment for every D-Bus interaction `userSwitcher.js`
performs.  `managerProxy` is whether `_ensureLoginManagerProxy` yields a
proxy; `listSessionsResult` the outcome of `ListSessions`;
`sessionClassProp`/`sessionActiveProp` the value obtained for the `Class`
and `Active` properties of a session object (`none` models a missing
property, a failed proxy, or a thrown error, all of which the source folds
into `null`); `activateOk` whether `ActivateSession` completes without
throwing for a given session id. -/
structure DBusEnv where
  managerProxy : Bool
  listSessionsResult : Except Unit (List RawSession)
  sessionClassProp : String → Option String
  sessionActiveProp : String → Option Bool
  activateOk : String → Bool

/-- The object-path guard string of the source
(`/org/freedesktop/login1/session/`). -/
def loginSessionPathRoot : String := "/org/freedesktop/login1/session/"

/-- JavaScript `s.startsWith(p)`: `p` is a prefix of `s` (character-wise,
over the string's character sequence). -/
def strStartsWith (s p : String) : Bool :=
  p.data.isPrefixOf s.data

/-- `_getSessionClass(sessionPath)`: `null` unless the path has the
session-object form, else the `Class` property (or `null` on failure). -/
def _getSessionClass (env : DBusEnv) (sessionPath : String) : Option String :=
  if strStartsWith sessionPath loginSessionPathRoot then
    env.sessionClassProp sessionPath
  else none

/-- `_getSessionActiveState(sessionPath)`: `null` unless the path has the
session-object form, else the `Active` property (or `null` on failure). -/
def _getSessionActiveState (env : DBusEnv) (sessionPath : String) : Option Bool :=
  if strStartsWith sessionPath loginSessionPathRoot then
    env.sessionActiveProp sessionPath
  else none

/-- Value stored in the `sessions` map of `_getSessionInfo`:
`{sessionId, seat, sessionClass, isActive: Boolean(isActive)}`. -/
structure SessionEntry where
  sessionId : String
  seat : String
  sessionClass : String
  isActive : Bool
deriving DecidableEq

/-- Result of `_getSessionInfo`: the `loggedInUsers` set (as an ordered
duplicate-free list) and the `sessions` map (as an insertion-ordered
association list keyed by username). -/
structure SessionInfo where
  loggedInUsers : List String
  sessions : List (String × SessionEntry)
deriving DecidableEq

/-- JavaScript `Set.add`: append the element unless already present. -/
def addUser (l : List String) (u : String) : List String :=
  if u ∈ l then l else l ++ [u]

/-- JavaScript `Map.get`: first binding of the key, if any. -/
def mapGet (m : List (String × SessionEntry)) (k : String) : Option SessionEntry :=
  (m.find? (fun p => p.1 = k)).map (fun p => p.2)

/-- JavaScript `Map.set`: replace the binding in place if the key exists,
else append. -/
def mapSet (m : List (String × SessionEntry)) (k : String) (v : SessionEntry) :
    List (String × SessionEntry) :=
  match m with
  | [] => [(k, v)]
  | p :: rest => if p.1 = k then (k, v) :: rest else p :: mapSet rest k v

/-- Entry built when `_getSessionInfo` stores a session:
`isActive` is `Boolean(isActive)` of the raw `Active` read. -/
def entryOf (env : DBusEnv) (s : RawSession) : SessionEntry :=
  { sessionId := s.sessionId
    seat := s.seat
    sessionClass := "user"
    isActive := decide (_getSessionActiveState env s.sessionPath = some true) }

/-- The loop body of `_getSessionInfo` for one `ListSessions` tuple. -/
def processSession (env : DBusEnv) (acc : SessionInfo) (s : RawSession) :
    SessionInfo :=
  if s.userName = "" then acc
  else
    let logged := addUser acc.loggedInUsers s.userName
    if !strStartsWith s.sessionPath loginSessionPathRoot then
      { acc with loggedInUsers := logged }
    else if _getSessionClass env s.sessionPath ≠ some "user" then
      { acc with loggedInUsers := logged }
    else
      let isActive := _getSessionActiveState env s.sessionPath
      match mapGet acc.sessions s.userName with
      | none =>
        { loggedInUsers := logged
          sessions := mapSet acc.sessions s.userName (entryOf env s) }
      | some existing =>
        if isActive = some true ∧ existing.isActive = false then
          { loggedInUsers := logged
            sessions := mapSet acc.sessions s.userName (entryOf env s) }
        else { acc with loggedInUsers := logged }

/-- `_getSessionInfo()`: empty result when the manager proxy is missing or
`ListSessions` throws; otherwise the fold of `processSession` over the
session list. -/
def _getSessionInfo (env : DBusEnv) : SessionInfo :=
  if !env.managerProxy then ⟨[], []⟩
  else
    match env.listSessionsResult with
    | .error _ => ⟨[], []⟩
    | .ok sessionList => sessionList.foldl (processSession env) ⟨[], []⟩

/-! ### Specification-side characterisation of the session reduction -/

/-- A `ListSessions` tuple that reaches the map-updating branch of the
loop: non-empty username, session-object path, `Class` resolved to
`user`. -/
def isUserClassSession (env : DBusEnv) (s : RawSession) : Bool :=
  !(s.userName = "") && strStartsWith s.sessionPath loginSessionPathRoot &&
    decide (_getSessionClass env s.sessionPath = some "user")

/-- The `user`-class session entries of one username, in `ListSessions`
order. -/
def userEntries (env : DBusEnv) (L : List RawSession) (u : String) :
    List SessionEntry :=
  (L.filter (fun s => isUserClassSession env s && s.userName = u)).map (entryOf env)

/-- The reduction the spec describes: the first active entry if one
exists, else the first entry. -/
def preferredOf (l : List SessionEntry) : Option SessionEntry :=
  match l.find? (fun e => e.isActive) with
  | some e => some e
  | none => l.head?

/-- How one loop iteration changes the binding retained for one username:
keep nothing yet → store the new entry; otherwise replace only when the
new entry is active and the stored one is not. -/
def reduceStep (cur : Option SessionEntry) (e : SessionEntry) : Option SessionEntry :=
  match cur with
  | none => some e
  | some ex => if e.isActive = true ∧ ex.isActive = false then some e else some ex

theorem mapGet_mapSet (m : List (String × SessionEntry)) (k : String)
    (v : SessionEntry) (u : String) :
    mapGet (mapSet m k v) u = if u = k then some v else mapGet m u := by
  induction m with
  | nil =>
    by_cases h : u = k
    · subst h; simp [mapGet, mapSet, List.find?]
    · have hk : ¬(k = u) := fun hh => h hh.symm
      simp [mapGet, mapSet, List.find?, h, hk]
  | cons p rest ih =>
    simp only [mapSet]
    by_cases hpk : p.1 = k
    · rw [if_pos hpk]
      by_cases huk : u = k
      · subst huk
        simp [mapGet, List.find?]
      · have hk : ¬(k = u) := fun hh => huk hh.symm
        have hpu : ¬(p.1 = u) := by rw [hpk]; exact hk
        simp [mapGet, List.find?, hk, huk, hpu]
    · rw [if_neg hpk]
      by_cases hpu : p.1 = u
      · have huk : ¬(u = k) := by rintro rfl; exact hpk hpu
        simp [mapGet, List.find?, hpu, huk]
      · have lhs : mapGet (p :: mapSet rest k v) u = mapGet (mapSet rest k v) u := by
          simp [mapGet, List.find?, hpu]
        have rhs : mapGet (p :: rest) u = mapGet rest u := by
          simp [mapGet, List.find?, hpu]
        rw [lhs, rhs, ih]

theorem processSession_sessions_other (env : DBusEnv) (acc : SessionInfo)
    (s : RawSession) (h : ¬isUserClassSession env s = true) :
    (processSession env acc s).sessions = acc.sessions := by
  by_cases h1 : s.userName = ""
  · simp [processSession, h1]
  by_cases h2 : strStartsWith s.sessionPath loginSessionPathRoot = true
  swap
  · have h2' : strStartsWith s.sessionPath loginSessionPathRoot = false := by
      simpa using h2
    simp [processSession, h1, h2']
  by_cases h3 : _getSessionClass env s.sessionPath = some "user"
  · exact absurd (by simp [isUserClassSession, h1, h2, h3]) h
  · simp [processSession, h1, h2, h3]

theorem processSession_sessions_userclass (env : DBusEnv) (acc : SessionInfo)
    (s : RawSession) (h1 : ¬s.userName = "")
    (h2 : strStartsWith s.sessionPath loginSessionPathRoot = true)
    (h3 : _getSessionClass env s.sessionPath = some "user") :
    (processSession env acc s).sessions =
      match mapGet acc.sessions s.userName with
      | none => mapSet acc.sessions s.userName (entryOf env s)
      | some existing =>
        if _getSessionActiveState env s.sessionPath = some true ∧
            existing.isActive = false then
          mapSet acc.sessions s.userName (entryOf env s)
        else acc.sessions := by
  have h3' : ¬_getSessionClass env s.sessionPath ≠ some "user" := by simp [h3]
  simp only [processSession, if_neg h1, h2, Bool.not_true, Bool.false_eq_true,
    if_false, if_neg h3']
  cases hex : mapGet acc.sessions s.userName with
  | none => rfl
  | some existing =>
    by_cases hc : _getSessionActiveState env s.sessionPath = some true ∧
        existing.isActive = false
    · simp only [if_pos hc]
    · simp only [if_neg hc]

theorem reduceStep_entry (env : DBusEnv) (s : RawSession)
    (cur : Option SessionEntry) :
    reduceStep cur (entryOf env s) =
      match cur with
      | none => some (entryOf env s)
      | some existing =>
        if _getSessionActiveState env s.sessionPath = some true ∧
            existing.isActive = false then some (entryOf env s)
        else some existing := by
  cases cur with
  | none => rfl
  | some existing =>
    by_cases hc : _getSessionActiveState env s.sessionPath = some true ∧
        existing.isActive = false
    · have hc' : (entryOf env s).isActive = true ∧ existing.isActive = false := by
        refine ⟨?_, hc.2⟩
        simp [entryOf, hc.1]
      simp only [reduceStep, if_pos hc', if_pos hc]
    · have hc' : ¬((entryOf env s).isActive = true ∧ existing.isActive = false) := by
        simp only [entryOf, decide_eq_true_eq]
        exact hc
      simp only [reduceStep, if_neg hc', if_neg hc]

theorem mapGet_processSession (env : DBusEnv) (acc : SessionInfo)
    (s : RawSession) (u : String) :
    mapGet (processSession env acc s).sessions u =
      if (isUserClassSession env s && s.userName = u) = true then
        reduceStep (mapGet acc.sessions u) (entryOf env s)
      else mapGet acc.sessions u := by
  by_cases hcls : isUserClassSession env s = true
  swap
  · have : ¬(isUserClassSession env s && s.userName = u) = true := by
      simp only [Bool.and_eq_true, not_and]
      intro hcc; exact absurd hcc hcls
    rw [if_neg this, processSession_sessions_other env acc s hcls]
  have h1 : ¬s.userName = "" := by
    simp only [isUserClassSession, Bool.and_eq_true, Bool.not_eq_true',
      decide_eq_true_eq] at hcls
    simpa using hcls.1.1
  have h2 : strStartsWith s.sessionPath loginSessionPathRoot = true := by
    simp only [isUserClassSession, Bool.and_eq_true] at hcls
    exact hcls.1.2
  have h3 : _getSessionClass env s.sessionPath = some "user" := by
    simp only [isUserClassSession, Bool.and_eq_true, decide_eq_true_eq] at hcls
    exact hcls.2
  rw [processSession_sessions_userclass env acc s h1 h2 h3]
  by_cases h4 : s.userName = u
  · subst h4
    have hcond : (isUserClassSession env s && s.userName = s.userName) = true := by
      simp [hcls]
    rw [if_pos hcond, reduceStep_entry]
    cases hex : mapGet acc.sessions s.userName with
    | none => simp [mapGet_mapSet]
    | some existing =>
      by_cases hc : _getSessionActiveState env s.sessionPath = some true ∧
          existing.isActive = false
      · simp [if_pos hc, mapGet_mapSet]
      · simp [if_neg hc, hex]
  · have hcond : ¬(isUserClassSession env s && s.userName = u) = true := by
      simp [h4]
    have hus : ¬(u = s.userName) := fun hh => h4 hh.symm
    rw [if_neg hcond]
    cases hex : mapGet acc.sessions s.userName with
    | none => simp [mapGet_mapSet, hus]
    | some existing =>
      by_cases hc : _getSessionActiveState env s.sessionPath = some true ∧
          existing.isActive = false
      · simp [if_pos hc, mapGet_mapSet, hus]
      · simp [if_neg hc]

theorem mapGet_foldl_processSession (env : DBusEnv) (L : List RawSession)
    (acc : SessionInfo) (u : String) :
    mapGet (L.foldl (processSession env) acc).sessions u =
      ((L.filter (fun s => isUserClassSession env s && s.userName = u)).map
        (entryOf env)).foldl reduceStep (mapGet acc.sessions u) := by
  induction L generalizing acc with
  | nil => rfl
  | cons s rest ih =>
    simp only [List.foldl_cons]
    rw [ih, mapGet_processSession]
    by_cases h : (isUserClassSession env s && s.userName = u) = true
    · rw [if_pos h]
      have hf : List.filter (fun s => isUserClassSession env s && s.userName = u)
          (s :: rest) =
            s :: List.filter (fun s => isUserClassSession env s && s.userName = u)
              rest := by
        simp only [List.filter_cons]
        simp [h]
      rw [hf]
      simp only [List.map_cons, List.foldl_cons]
    · rw [if_neg h]
      have hf : List.filter (fun s => isUserClassSession env s && s.userName = u)
          (s :: rest) =
            List.filter (fun s => isUserClassSession env s && s.userName = u)
              rest := by
        simp only [List.filter_cons]
        simp [h]
      rw [hf]

theorem foldl_reduceStep_active (ex : SessionEntry) (h : ex.isActive = true)
    (l : List SessionEntry) :
    l.foldl reduceStep (some ex) = some ex := by
  induction l with
  | nil => rfl
  | cons e rest ih =>
    simp only [List.foldl_cons, reduceStep, h]
    simp [ih]

theorem foldl_reduceStep_inactive (ex : SessionEntry) (h : ex.isActive = false)
    (l : List SessionEntry) :
    l.foldl reduceStep (some ex) =
      match l.find? (fun e => e.isActive) with
      | some e => some e
      | none => some ex := by
  induction l with
  | nil => rfl
  | cons e rest ih =>
    by_cases he : e.isActive = true
    · simp only [List.foldl_cons, reduceStep, he, h, and_self, if_pos trivial]
      rw [foldl_reduceStep_active e he rest]
      simp [List.find?, he]
    · have he' : e.isActive = false := by simpa using he
      simp only [List.foldl_cons, reduceStep, he']
      simp only [Bool.false_eq_true, false_and, if_false]
      rw [ih]
      simp [List.find?, he']

theorem foldl_reduceStep_none (l : List SessionEntry) :
    l.foldl reduceStep none = preferredOf l := by
  cases l with
  | nil => rfl
  | cons e rest =>
    simp only [List.foldl_cons, reduceStep]
    by_cases he : e.isActive = true
    · rw [foldl_reduceStep_active e he rest]
      simp [preferredOf, List.find?, he]
    · have he' : e.isActive = false := by simpa using he
      rw [foldl_reduceStep_inactive e he' rest]
      simp [preferredOf, List.find?, he']

/-- Characterisation of the `sessions` map of `_getSessionInfo`: the entry
retained for a username is the first active `user`-class session if one
exists, else the first `user`-class session. -/
theorem getSessionInfo_sessions (env : DBusEnv) (L : List RawSession)
    (u : String) (hp : env.managerProxy = true)
    (hok : env.listSessionsResult = .ok L) :
    mapGet (_getSessionInfo env).sessions u = preferredOf (userEntries env L u) := by
  simp only [_getSessionInfo, hp, Bool.not_true, Bool.false_eq_true, if_false, hok]
  rw [mapGet_foldl_processSession]
  simp only [userEntries]
  have : mapGet (⟨[], []⟩ : SessionInfo).sessions u = none := rfl
  rw [this, foldl_reduceStep_none]

theorem processSession_logged (env : DBusEnv) (acc : SessionInfo)
    (s : RawSession) (h1 : ¬s.userName = "") :
    (processSession env acc s).loggedInUsers =
      addUser acc.loggedInUsers s.userName := by
  simp only [processSession, if_neg h1]
  by_cases h2 : strStartsWith s.sessionPath loginSessionPathRoot = true
  swap
  · have h2' : strStartsWith s.sessionPath loginSessionPathRoot = false := by
      simpa using h2
    simp [h2']
  by_cases h3 : _getSessionClass env s.sessionPath ≠ some "user"
  · simp [h2, if_pos h3]
  · simp only [h2, Bool.not_true, Bool.false_eq_true, if_false, if_neg h3]
    cases hex : mapGet acc.sessions s.userName with
    | none => rfl
    | some existing =>
      by_cases hc : _getSessionActiveState env s.sessionPath = some true ∧
          existing.isActive = false
      · simp only [if_pos hc]
      · simp only [if_neg hc]

theorem mem_addUser (l : List String) (u v : String) :
    v ∈ addUser l u ↔ v ∈ l ∨ v = u := by
  unfold addUser
  by_cases h : u ∈ l
  · rw [if_pos h]
    constructor
    · exact Or.inl
    · rintro (hv | rfl)
      · exact hv
      · exact h
  · rw [if_neg h]
    simp [List.mem_append]

theorem mem_foldl_logged (env : DBusEnv) (L : List RawSession)
    (acc : SessionInfo) (v : String) :
    v ∈ (L.foldl (processSession env) acc).loggedInUsers ↔
      v ∈ acc.loggedInUsers ∨ (¬v = "" ∧ ∃ s ∈ L, s.userName = v) := by
  induction L generalizing acc with
  | nil => simp
  | cons s rest ih =>
    simp only [List.foldl_cons]
    rw [ih]
    by_cases h1 : s.userName = ""
    · have hl : (processSession env acc s).loggedInUsers = acc.loggedInUsers := by
        simp [processSession, h1]
      rw [hl]
      constructor
      · rintro (hv | ⟨hne, t, ht, htv⟩)
        · exact Or.inl hv
        · exact Or.inr ⟨hne, t, List.mem_cons_of_mem s ht, htv⟩
      · rintro (hv | ⟨hne, t, ht, htv⟩)
        · exact Or.inl hv
        · rcases List.mem_cons.mp ht with rfl | ht'
          · exact absurd (htv ▸ h1) hne
          · exact Or.inr ⟨hne, t, ht', htv⟩
    · rw [processSession_logged env acc s h1, mem_addUser]
      constructor
      · rintro ((hv | rfl) | ⟨hne, t, ht, htv⟩)
        · exact Or.inl hv
        · exact Or.inr ⟨h1, s, List.mem_cons_self s rest, rfl⟩
        · exact Or.inr ⟨hne, t, List.mem_cons_of_mem s ht, htv⟩
      · rintro (hv | ⟨hne, t, ht, htv⟩)
        · exact Or.inl (Or.inl hv)
        · rcases List.mem_cons.mp ht with rfl | ht'
          · exact Or.inl (Or.inr htv.symm)
          · exact Or.inr ⟨hne, t, ht', htv⟩

/-- Characterisation of the `loggedInUsers` set of `_getSessionInfo`: a
username is in it iff it is non-empty and owns some listed session, of any
class. -/
theorem getSessionInfo_logged (env : DBusEnv) (L : List RawSession)
    (u : String) (hp : env.managerProxy = true)
    (hok : env.listSessionsResult = .ok L) :
    u ∈ (_getSessionInfo env).loggedInUsers ↔
      (¬u = "" ∧ ∃ s ∈ L, s.userName = u) := by
  simp only [_getSessionInfo, hp, Bool.not_true, Bool.false_eq_true, if_false, hok]
  rw [mem_foldl_logged]
  simp

/-! ## View-model rows and user activation -/

/-- The facts `_createUserWidget` renders into one row: the label text,
the `current-user` styling, the signed-in styling, and whether the session
badge is added (`isCurrent || isSignedIn`). -/
structure UserWidget where
  displayName : String
  isCurrent : Bool
  isSignedIn : Bool
  hasSessionBadge : Bool
deriving DecidableEq

/-- `_createUserWidget(user, currentUserName, sessionInfo)`. -/
def _createUserWidget (user : AccountRecord) (currentUserName : String)
    (sessionInfo : SessionInfo) : UserWidget :=
  let displayName := if !(user.realName = "") then user.realName else user.username
  let username := user.username
  let isCurrent : Bool := decide (username = currentUserName)
  let isSignedIn : Bool := decide (username ∈ sessionInfo.loggedInUsers)
  { displayName := displayName
    isCurrent := isCurrent
    isSignedIn := isSignedIn
    hasSessionBadge := isCurrent || isSignedIn }

/-- `_activateUserSession(username)`: the boolean result together with the
number of `ActivateSession` D-Bus calls performed (0 or 1). -/
def _activateUserSession (env : DBusEnv) (username : String) : Bool × Nat :=
  match mapGet (_getSessionInfo env).sessions username with
  | none => (false, 0)
  | some sessionData =>
    if !env.managerProxy then (false, 0)
    else (env.activateOk sessionData.sessionId, 1)

/-- Outcome of a click on a user row. -/
inductive SwitchAction where
  | noop
  | activated
  | fallbackToGreeter
deriving DecidableEq

/-- Observable result of `_activateUser`: the action taken, the number of
`ActivateSession` calls, and the number of `_gotoLoginWindow`
invocations. -/
structure SwitchResult where
  action : SwitchAction
  activateCalls : Nat
  greeterHandoffs : Nat
deriving DecidableEq

/-- `_activateUser(user)` after the username lookup: close the menu, then
no-op for the current user, otherwise activate via a fresh
`_getSessionInfo` query and fall back to the login window on failure. -/
def _activateUser (env : DBusEnv) (currentUserName username : String) :
    SwitchResult :=
  if username = "" then ⟨.noop, 0, 0⟩
  else if username = currentUserName then ⟨.noop, 0, 0⟩
  else
    let r := _activateUserSession env username
    if r.1 then ⟨.activated, r.2, 0⟩
    else ⟨.fallbackToGreeter, r.2, 1⟩

/-! ## Greeter-handoff scheduling (`_gotoLoginWindow` / `destroy`) -/

/-- Joint state of the button and the repaint-func scheduler:
`repaintFuncId` is the component field (0 when none), `scheduledFuncs` the
scheduler's live one-shot continuations, `nextId` the next id
`threads_add_repaint_func` hands out (ids are positive), `handoffsFired`
how many scheduled greeter handoffs have run, `destroyed` whether
`destroy()` has completed. -/
structure RepaintState where
  repaintFuncId : Nat
  scheduledFuncs : List Nat
  nextId : Nat
  handoffsFired : Nat
  destroyed : Bool
deriving DecidableEq

/-- Initial state: `_repaintFuncId = 0`, nothing scheduled. -/
def initRepaintState : RepaintState :=
  { repaintFuncId := 0, scheduledFuncs := [], nextId := 1,
    handoffsFired := 0, destroyed := false }

/-- `_clearRepaintFunc()`: remove the tracked repaint func, if any, and
zero the field. -/
def _clearRepaintFunc (s : RepaintState) : RepaintState :=
  if s.repaintFuncId ≠ 0 then
    { s with
        scheduledFuncs := s.scheduledFuncs.filter (fun i => i ≠ s.repaintFuncId)
        repaintFuncId := 0 }
  else s

/-- `_gotoLoginWindow()`: clear any previously scheduled continuation,
then schedule a fresh one-shot repaint func and track its id. -/
def _gotoLoginWindow (s : RepaintState) : RepaintState :=
  if s.destroyed then s
  else
    let s := _clearRepaintFunc s
    { s with
        repaintFuncId := s.nextId
        scheduledFuncs := s.scheduledFuncs ++ [s.nextId]
        nextId := s.nextId + 1 }

/-- The scheduler fires the next scheduled repaint func, if any: the
callback zeroes `_repaintFuncId`, performs the greeter handoff, and
returns `false`, so the func is removed. -/
def fireRepaint (s : RepaintState) : RepaintState :=
  match s.scheduledFuncs with
  | [] => s
  | _ :: rest =>
    { s with
        scheduledFuncs := rest
        repaintFuncId := 0
        handoffsFired := s.handoffsFired + 1 }

/-- `destroy()`: among other teardown, `_clearRepaintFunc()` runs, so any
pending continuation is cancelled. -/
def destroyButton (s : RepaintState) : RepaintState :=
  if s.destroyed then s
  else { _clearRepaintFunc s with destroyed := true }

/-- The events that touch the repaint continuation. -/
inductive RepaintEvent where
  | goto
  | fire
  | destroy
deriving DecidableEq

def stepRepaint (s : RepaintState) : RepaintEvent → RepaintState
  | .goto => _gotoLoginWindow s
  | .fire => fireRepaint s
  | .destroy => destroyButton s

def runRepaint (events : List RepaintEvent) : RepaintState :=
  events.foldl stepRepaint initRepaintState

/-! ## Sorting of visible users -/

/-- `a.get_real_name?.() || a.get_user_name?.() || ''` of the source:
display name with username fallback. -/
def displayNameOf (u : AccountRecord) : String :=
  if !(u.realName = "") then u.realName else u.username

/-- `_compareUsers(a, b, currentUserName)`, parametrised by the
`GLib.utf8_collate` locale collation. -/
def _compareUsers (collate : String → String → Int)
    (a b : AccountRecord) (currentUserName : String) : Int :=
  let aIsCurrent := a.username = currentUserName
  let bIsCurrent := b.username = currentUserName
  if aIsCurrent ∧ ¬bIsCurrent then -1
  else if ¬aIsCurrent ∧ bIsCurrent then 1
  else collate (displayNameOf a) (displayNameOf b)

/-- The filter predicate of `_collectVisibleUsers`: loaded, named, and
either the current user or a real (UID ≥ 1000, non-system) account. -/
def isVisibleUser (u : AccountRecord) (currentUserName : String) : Bool :=
  u.is_loaded && !(u.username = "") &&
    (decide (u.username = currentUserName) ||
      (decide (MINIMUM_VISIBLE_UID ≤ u.uid) && !u.system_account))

/-- The `filter` stage of `_collectVisibleUsers`, in list order. -/
def _visibleFiltered (userList : List AccountRecord) (currentUserName : String) :
    List AccountRecord :=
  userList.filter (fun u => isVisibleUser u currentUserName)

/-- Insert into a sorted list before the first element that does not
compare strictly smaller; together with `stableSort` this is a stable
sort, matching the stability ECMA-262 guarantees for
`Array.prototype.sort`. -/
def insertSorted (cmp : AccountRecord → AccountRecord → Int)
    (x : AccountRecord) : List AccountRecord → List AccountRecord
  | [] => [x]
  | y :: ys => if cmp x y ≤ 0 then x :: y :: ys else y :: insertSorted cmp x ys

/-- Stable insertion sort by a three-way comparator. -/
def stableSort (cmp : AccountRecord → AccountRecord → Int) :
    List AccountRecord → List AccountRecord
  | [] => []
  | x :: xs => insertSorted cmp x (stableSort cmp xs)

/-- `_collectVisibleUsers(currentUserName)`: filter, then sort with
`_compareUsers`. -/
def _collectVisibleUsers (collate : String → String → Int)
    (userList : List AccountRecord) (currentUserName : String) :
    List AccountRecord :=
  stableSort (fun a b => _compareUsers collate a b currentUserName)
    (_visibleFiltered userList currentUserName)

theorem mem_insertSorted (cmp : AccountRecord → AccountRecord → Int)
    (x z : AccountRecord) (l : List AccountRecord) :
    z ∈ insertSorted cmp x l ↔ z = x ∨ z ∈ l := by
  induction l with
  | nil => simp [insertSorted]
  | cons y ys ih =>
    by_cases hxy : cmp x y ≤ 0
    · simp [insertSorted, hxy]
    · simp only [insertSorted, if_neg hxy, List.mem_cons, ih]
      tauto

theorem mem_stableSort (cmp : AccountRecord → AccountRecord → Int)
    (z : AccountRecord) (l : List AccountRecord) :
    z ∈ stableSort cmp l ↔ z ∈ l := by
  induction l with
  | nil => simp [stableSort]
  | cons x xs ih =>
    simp only [stableSort, mem_insertSorted, ih, List.mem_cons]

theorem pairwise_insertSorted (cmp : AccountRecord → AccountRecord → Int)
    (htrans : ∀ a b c, cmp a b ≤ 0 → cmp b c ≤ 0 → cmp a c ≤ 0)
    (htotal : ∀ a b, cmp a b ≤ 0 ∨ cmp b a ≤ 0)
    (x : AccountRecord) (l : List AccountRecord)
    (h : l.Pairwise (fun a b => cmp a b ≤ 0)) :
    (insertSorted cmp x l).Pairwise (fun a b => cmp a b ≤ 0) := by
  induction l with
  | nil => simp [insertSorted]
  | cons y ys ih =>
    rcases List.pairwise_cons.mp h with ⟨hy, hys⟩
    by_cases hxy : cmp x y ≤ 0
    · simp only [insertSorted, if_pos hxy]
      refine List.pairwise_cons.mpr ⟨?_, h⟩
      intro z hz
      rcases List.mem_cons.mp hz with rfl | hz'
      · exact hxy
      · exact htrans x y z hxy (hy z hz')
    · simp only [insertSorted, if_neg hxy]
      refine List.pairwise_cons.mpr ⟨?_, ih hys⟩
      intro z hz
      rcases (mem_insertSorted cmp x z ys).mp hz with rfl | hz'
      · rcases htotal z y with h' | h'
        · exact absurd h' hxy
        · exact h'
      · exact hy z hz'

theorem pairwise_stableSort (cmp : AccountRecord → AccountRecord → Int)
    (htrans : ∀ a b c, cmp a b ≤ 0 → cmp b c ≤ 0 → cmp a c ≤ 0)
    (htotal : ∀ a b, cmp a b ≤ 0 ∨ cmp b a ≤ 0)
    (l : List AccountRecord) :
    (stableSort cmp l).Pairwise (fun a b => cmp a b ≤ 0) := by
  induction l with
  | nil => simp [stableSort]
  | cons x xs ih =>
    exact pairwise_insertSorted cmp htrans htotal x (stableSort cmp xs) ih

theorem sublist_insertSorted (cmp : AccountRecord → AccountRecord → Int)
    (x : AccountRecord) (l : List AccountRecord) :
    l.Sublist (insertSorted cmp x l) := by
  induction l with
  | nil => simp [insertSorted]
  | cons y ys ih =>
    by_cases hxy : cmp x y ≤ 0
    · simp only [insertSorted, if_pos hxy]
      exact List.Sublist.cons x (List.Sublist.refl (y :: ys))
    · simp only [insertSorted, if_neg hxy]
      exact List.Sublist.cons₂ y ih

theorem pair_sublist_insertSorted (cmp : AccountRecord → AccountRecord → Int)
    (x b : AccountRecord) (l : List AccountRecord)
    (hb : b ∈ l) (hxb : cmp x b ≤ 0) :
    [x, b].Sublist (insertSorted cmp x l) := by
  induction l with
  | nil => cases hb
  | cons y ys ih =>
    by_cases hxy : cmp x y ≤ 0
    · simp only [insertSorted, if_pos hxy]
      exact List.Sublist.cons₂ x (List.singleton_sublist.mpr hb)
    · simp only [insertSorted, if_neg hxy]
      rcases List.mem_cons.mp hb with rfl | hb'
      · exact absurd hxb hxy
      · exact List.Sublist.cons y (ih hb')

/-- Stability of the sort: a pair whose first element compares
less-or-equal keeps its relative order. -/
theorem stableSort_stable (cmp : AccountRecord → AccountRecord → Int)
    (a b : AccountRecord) (l : List AccountRecord)
    (hab : cmp a b ≤ 0) (hsub : [a, b].Sublist l) :
    [a, b].Sublist (stableSort cmp l) := by
  induction l with
  | nil => cases hsub
  | cons x xs ih =>
    simp only [stableSort]
    cases hsub with
    | cons _ h =>
      exact (ih h).trans (sublist_insertSorted cmp x (stableSort cmp xs))
    | cons₂ _ h =>
      have hb : b ∈ stableSort cmp xs :=
        (mem_stableSort cmp b xs).mpr (List.singleton_sublist.mp h)
      exact pair_sublist_insertSorted cmp a b (stableSort cmp xs) hb hab

theorem compareUsers_cur_noncur (collate : String → String → Int)
    (current : String) (a b : AccountRecord)
    (ha : a.username = current) (hb : ¬b.username = current) :
    _compareUsers collate a b current = -1 := by
  simp [_compareUsers, ha, hb]

theorem compareUsers_noncur_cur (collate : String → String → Int)
    (current : String) (a b : AccountRecord)
    (ha : ¬a.username = current) (hb : b.username = current) :
    _compareUsers collate a b current = 1 := by
  simp [_compareUsers, ha, hb]

theorem compareUsers_noncur_noncur (collate : String → String → Int)
    (current : String) (a b : AccountRecord)
    (ha : ¬a.username = current) (hb : ¬b.username = current) :
    _compareUsers collate a b current =
      collate (displayNameOf a) (displayNameOf b) := by
  simp [_compareUsers, ha, hb]

theorem compareUsers_cur_cur (collate : String → String → Int)
    (current : String) (a b : AccountRecord)
    (ha : a.username = current) (hb : b.username = current) :
    _compareUsers collate a b current =
      collate (displayNameOf a) (displayNameOf b) := by
  simp [_compareUsers, ha, hb]

theorem insertSorted_current_block (collate : String → String → Int)
    (current : String) (x : AccountRecord) (cs ns : List AccountRecord)
    (hns : ∀ n ∈ ns, ¬n.username = current) (hx : x.username = current) :
    ∃ cs', insertSorted (fun a b => _compareUsers collate a b current) x
        (cs ++ ns) = cs' ++ ns ∧
      ∀ c ∈ cs', c.username = current ∨ c ∈ cs := by
  induction cs with
  | nil =>
    cases ns with
    | nil => exact ⟨[x], rfl, by simp [hx]⟩
    | cons n ns' =>
      have hn : ¬n.username = current := hns n (List.mem_cons_self n ns')
      have hcmp : _compareUsers collate x n current ≤ 0 := by
        rw [compareUsers_cur_noncur collate current x n hx hn]
        decide
      refine ⟨[x], ?_, by simp [hx]⟩
      simp [insertSorted, hcmp]
  | cons c cs' ih =>
    by_cases hcmp : _compareUsers collate x c current ≤ 0
    · refine ⟨x :: c :: cs', ?_, ?_⟩
      · simp [insertSorted, hcmp]
      · intro d hd
        rcases List.mem_cons.mp hd with rfl | hd'
        · exact Or.inl hx
        · exact Or.inr hd'
    · obtain ⟨cs'', heq, hcs''⟩ := ih
      refine ⟨c :: cs'', ?_, ?_⟩
      · simp only [List.cons_append, insertSorted, if_neg hcmp, List.append_eq, heq]
      · intro d hd
        rcases List.mem_cons.mp hd with rfl | hd'
        · exact Or.inr (List.mem_cons_self d cs')
        · rcases hcs'' d hd' with h' | h'
          · exact Or.inl h'
          · exact Or.inr (List.mem_cons_of_mem c h')

theorem insertSorted_noncurrent (collate : String → String → Int)
    (current : String) (x : AccountRecord) (cs ns : List AccountRecord)
    (hcs : ∀ c ∈ cs, c.username = current) (hx : ¬x.username = current) :
    insertSorted (fun a b => _compareUsers collate a b current) x (cs ++ ns) =
      cs ++ insertSorted (fun a b => _compareUsers collate a b current) x ns := by
  induction cs with
  | nil => rfl
  | cons c cs' ih =>
    have hc : c.username = current := hcs c (List.mem_cons_self c cs')
    have hcmp : ¬_compareUsers collate x c current ≤ 0 := by
      rw [compareUsers_noncur_cur collate current x c hx hc]
      decide
    simp only [List.cons_append, insertSorted, if_neg hcmp, List.append_eq]
    rw [ih (fun d hd => hcs d (List.mem_cons_of_mem c hd))]

/-- The sort never puts a non-current user before a current one: the
output splits into a block of current-user records followed by the
rest. -/
theorem stableSort_current_split (collate : String → String → Int)
    (current : String) (l : List AccountRecord) :
    ∃ cs ns,
      stableSort (fun a b => _compareUsers collate a b current) l = cs ++ ns ∧
        (∀ c ∈ cs, c.username = current) ∧ (∀ n ∈ ns, ¬n.username = current) := by
  induction l with
  | nil => exact ⟨[], [], rfl, by simp, by simp⟩
  | cons x xs ih =>
    obtain ⟨cs, ns, heq, hcs, hns⟩ := ih
    by_cases hx : x.username = current
    · obtain ⟨cs', heq', hcs'⟩ :=
        insertSorted_current_block collate current x cs ns hns hx
      refine ⟨cs', ns, ?_, ?_, hns⟩
      · simp only [stableSort, heq, heq']
      · intro c hc
        rcases hcs' c hc with h' | h'
        · exact h'
        · exact hcs c h'
    · refine ⟨cs, insertSorted (fun a b => _compareUsers collate a b current) x ns,
        ?_, hcs, ?_⟩
      · simp only [stableSort, heq]
        exact insertSorted_noncurrent collate current x cs ns hcs hx
      · intro n hn
        rcases (mem_insertSorted _ x n ns).mp hn with rfl | hn'
        · exact hx
        · exact hns n hn'

/-- If some current-user record is in the input, the sorted output starts
with a current-user record. -/
theorem stableSort_head_current (collate : String → String → Int)
    (current : String) (l : List AccountRecord)
    (hex : ∃ r ∈ l, r.username = current) :
    ∃ x xs,
      stableSort (fun a b => _compareUsers collate a b current) l = x :: xs ∧
        x.username = current := by
  obtain ⟨cs, ns, heq, hcs, hns⟩ := stableSort_current_split collate current l
  obtain ⟨r, hr, hru⟩ := hex
  have hrs : r ∈ cs ++ ns := by
    rw [← heq]
    exact (mem_stableSort _ r l).mpr hr
  rcases List.mem_append.mp hrs with hrc | hrn
  swap
  · exact absurd hru (hns r hrn)
  cases cs with
  | nil => cases hrc
  | cons c cs' =>
    exact ⟨c, cs' ++ ns, by simpa using heq, hcs c (List.mem_cons_self c cs')⟩

/-- Invariant tying the component's `_repaintFuncId` field to the
scheduler: the live continuations are exactly the tracked one (if any),
ids are positive, and a destroyed component tracks none. -/
def repaintInv (s : RepaintState) : Prop :=
  s.scheduledFuncs = (if s.repaintFuncId = 0 then [] else [s.repaintFuncId]) ∧
    (s.destroyed = true → s.repaintFuncId = 0) ∧ 1 ≤ s.nextId

theorem clearRepaintFunc_scheduled (s : RepaintState) (h : repaintInv s) :
    (_clearRepaintFunc s).scheduledFuncs = [] := by
  unfold _clearRepaintFunc
  by_cases hid : s.repaintFuncId = 0
  · rw [if_neg (by simp [hid])]
    rw [h.1, if_pos hid]
  · rw [if_pos hid]
    have hs : s.scheduledFuncs = [s.repaintFuncId] := by rw [h.1, if_neg hid]
    rw [hs]
    simp [List.filter]

theorem clearRepaintFunc_id (s : RepaintState) :
    (_clearRepaintFunc s).repaintFuncId = 0 := by
  unfold _clearRepaintFunc
  by_cases hid : s.repaintFuncId = 0
  · rw [if_neg (by simp [hid])]
    exact hid
  · rw [if_pos hid]

theorem clearRepaintFunc_destroyed (s : RepaintState) :
    (_clearRepaintFunc s).destroyed = s.destroyed := by
  unfold _clearRepaintFunc
  split <;> rfl

theorem clearRepaintFunc_nextId (s : RepaintState) :
    (_clearRepaintFunc s).nextId = s.nextId := by
  unfold _clearRepaintFunc
  split <;> rfl

theorem repaintInv_init : repaintInv initRepaintState := by
  refine ⟨rfl, fun _ => rfl, ?_⟩
  simp [initRepaintState]

theorem repaintInv_goto (s : RepaintState) (h : repaintInv s) :
    repaintInv (_gotoLoginWindow s) := by
  unfold _gotoLoginWindow
  by_cases hd : s.destroyed
  · rw [if_pos hd]; exact h
  · rw [if_neg hd]
    have h1 := clearRepaintFunc_scheduled s h
    have h2 := clearRepaintFunc_nextId s
    have h3 := clearRepaintFunc_destroyed s
    refine ⟨?_, ?_, ?_⟩
    · simp only [h1, h2, List.nil_append]
      have hn : 1 ≤ s.nextId := h.2.2
      rw [if_neg (by omega)]
    · intro hdc
      simp only [h3] at hdc
      exact absurd hdc hd
    · simp only [h2]
      omega

theorem repaintInv_fire (s : RepaintState) (h : repaintInv s) :
    repaintInv (fireRepaint s) := by
  unfold fireRepaint
  cases hs : s.scheduledFuncs with
  | nil => exact h
  | cons i rest =>
    have hrest : rest = [] := by
      rw [h.1] at hs
      by_cases hid : s.repaintFuncId = 0
      · rw [if_pos hid] at hs; cases hs
      · rw [if_neg hid] at hs
        exact (List.cons.injEq _ _ _ _ ▸ hs).2.symm ▸ rfl
    refine ⟨?_, fun _ => rfl, h.2.2⟩
    simp [hrest]

theorem repaintInv_destroy (s : RepaintState) (h : repaintInv s) :
    repaintInv (destroyButton s) := by
  unfold destroyButton
  by_cases hd : s.destroyed
  · rw [if_pos hd]; exact h
  · rw [if_neg hd]
    refine ⟨?_, fun _ => clearRepaintFunc_id s, ?_⟩
    · rw [clearRepaintFunc_scheduled s h, if_pos (clearRepaintFunc_id s)]
    · rw [clearRepaintFunc_nextId s]
      exact h.2.2

theorem repaintInv_step (s : RepaintState) (e : RepaintEvent)
    (h : repaintInv s) : repaintInv (stepRepaint s e) := by
  cases e with
  | goto => exact repaintInv_goto s h
  | fire => exact repaintInv_fire s h
  | destroy => exact repaintInv_destroy s h

theorem repaintInv_run (events : List RepaintEvent) :
    repaintInv (runRepaint events) := by
  unfold runRepaint
  have : ∀ (evs : List RepaintEvent) (s : RepaintState), repaintInv s →
      repaintInv (evs.foldl stepRepaint s) := by
    intro evs
    induction evs with
    | nil => exact fun s hs => hs
    | cons e rest ih =>
      intro s hs
      exact ih (stepRepaint s e) (repaintInv_step s e hs)
  exact this events initRepaintState repaintInv_init

/-- `preferredOf` yields an entry exactly when the entry list is
non-empty. -/
theorem preferredOf_eq_none (l : List SessionEntry) :
    preferredOf l = none ↔ l = [] := by
  cases l with
  | nil => simp [preferredOf]
  | cons e rest =>
    simp only [preferredOf]
    cases hf : (e :: rest).find? (fun e => e.isActive) with
    | none => simp
    | some a => simp

theorem compareUsers_le_trans (collate : String → String → Int)
    (current : String)
    (htrans : ∀ x y z, collate x y ≤ 0 → collate y z ≤ 0 → collate x z ≤ 0)
    (a b c : AccountRecord)
    (hab : _compareUsers collate a b current ≤ 0)
    (hbc : _compareUsers collate b c current ≤ 0) :
    _compareUsers collate a c current ≤ 0 := by
  by_cases hc : c.username = current
  · by_cases ha : a.username = current
    · rw [compareUsers_cur_cur collate current a c ha hc]
      by_cases hb : b.username = current
      · rw [compareUsers_cur_cur collate current a b ha hb] at hab
        rw [compareUsers_cur_cur collate current b c hb hc] at hbc
        exact htrans _ _ _ hab hbc
      · rw [compareUsers_noncur_cur collate current b c hb hc] at hbc
        omega
    · by_cases hb : b.username = current
      · rw [compareUsers_noncur_cur collate current a b ha hb] at hab
        omega
      · rw [compareUsers_noncur_cur collate current b c hb hc] at hbc
        omega
  · by_cases ha : a.username = current
    · rw [compareUsers_cur_noncur collate current a c ha hc]
      omega
    · rw [compareUsers_noncur_noncur collate current a c ha hc]
      by_cases hb : b.username = current
      · rw [compareUsers_noncur_cur collate current a b ha hb] at hab
        omega
      · rw [compareUsers_noncur_noncur collate current a b ha hb] at hab
        rw [compareUsers_noncur_noncur collate current b c hb hc] at hbc
        exact htrans _ _ _ hab hbc

theorem compareUsers_le_total (collate : String → String → Int)
    (current : String)
    (htotal : ∀ x y, collate x y ≤ 0 ∨ collate y x ≤ 0)
    (a b : AccountRecord) :
    _compareUsers collate a b current ≤ 0 ∨
      _compareUsers collate b a current ≤ 0 := by
  by_cases ha : a.username = current
  · by_cases hb : b.username = current
    · rw [compareUsers_cur_cur collate current a b ha hb,
        compareUsers_cur_cur collate current b a hb ha]
      exact htotal _ _
    · left
      rw [compareUsers_cur_noncur collate current a b ha hb]
      omega
  · by_cases hb : b.username = current
    · right
      rw [compareUsers_cur_noncur collate current b a hb ha]
      omega
    · rw [compareUsers_noncur_noncur collate current a b ha hb,
        compareUsers_noncur_noncur collate current b a hb ha]
      exact htotal _ _

theorem updateVisibility_mounted (mgr : Option UserManager) (mounted : Bool) :
    (_updateVisibility mgr mounted).1 = decide (countRealUsers mgr > 1) := by
  unfold _updateVisibility
  by_cases h : countRealUsers mgr > 1 <;> cases mounted <;> simp [h]

theorem runVisibility_append (evs : List (Option UserManager))
    (ev : Option UserManager) :
    (runVisibility (evs ++ [ev])).1 =
      decide (countRealUsers ev > 1) := by
  unfold runVisibility
  rw [List.foldl_append]
  exact updateVisibility_mounted ev _

theorem runVisibility_actions_append (evs : List (Option UserManager))
    (ev : Option UserManager) :
    (runVisibility (evs ++ [ev])).2 =
      (runVisibility evs).2 ++ [(_updateVisibility ev (runVisibility evs).1).2] := by
  unfold runVisibility
  rw [List.foldl_append]
  rfl

/-! ## Example inputs used by the per-claim witnesses -/

def exSessionA1 : RawSession :=
  { sessionId := "s1", userName := "a", seat := "seat0",
    sessionPath := "/org/freedesktop/login1/session/_31" }

def exSessionA2 : RawSession :=
  { sessionId := "s2", userName := "a", seat := "seat0",
    sessionPath := "/org/freedesktop/login1/session/_32" }

def exSessionB1 : RawSession :=
  { sessionId := "s3", userName := "b", seat := "seat1",
    sessionPath := "/org/freedesktop/login1/session/_33" }

def exSessionsC1 : List RawSession := [exSessionA1, exSessionA2, exSessionB1]

/-- The session-reduction example of the spec: two sessions for `a`
(the second active), one inactive session for `b`, all of class `user`. -/
def envC1 : DBusEnv :=
  { managerProxy := true
    listSessionsResult := Except.ok exSessionsC1
    sessionClassProp := fun _ => some "user"
    sessionActiveProp := fun p =>
      some (decide (p = "/org/freedesktop/login1/session/_32"))
    activateOk := fun _ => true }

/-- Environment with a reachable manager and no sessions at all. -/
def envC2 : DBusEnv :=
  { managerProxy := true
    listSessionsResult := Except.ok []
    sessionClassProp := fun _ => none
    sessionActiveProp := fun _ => none
    activateOk := fun _ => false }

/-- Environment whose `ListSessions` call throws. -/
def envC7 : DBusEnv :=
  { managerProxy := true
    listSessionsResult := Except.error ()
    sessionClassProp := fun _ => none
    sessionActiveProp := fun _ => none
    activateOk := fun _ => true }

def exSessionC10 : RawSession :=
  { sessionId := "s7", userName := "carol", seat := "seat0",
    sessionPath := "/org/freedesktop/login1/session/_37" }

/-- Environment with one `user`-class session whose `Active` property is
unreadable. -/
def envC10 : DBusEnv :=
  { managerProxy := true
    listSessionsResult := Except.ok [exSessionC10]
    sessionClassProp := fun _ => some "user"
    sessionActiveProp := fun _ => none
    activateOk := fun _ => false }

/-! ## Claims -/

/-- C1: per-user session reduction.  For the session list returned by the
manager, the binding retained for each username is unique
(`mapGet` of the `sessions` map) and equals the preferred session: the
first active `user`-class session if any session of that user is active,
else the first encountered `user`-class session. -/
theorem claim_C1_session_reduction (env : DBusEnv) (L : List RawSession)
    (u : String) (hp : env.managerProxy = true)
    (hok : env.listSessionsResult = Except.ok L) :
    mapGet (_getSessionInfo env).sessions u = preferredOf (userEntries env L u) ∧
      ((∃ e ∈ userEntries env L u, e.isActive = true) →
        ∃ e, mapGet (_getSessionInfo env).sessions u = some e ∧
          e.isActive = true) ∧
      ((∀ e ∈ userEntries env L u, e.isActive = false) →
        mapGet (_getSessionInfo env).sessions u = (userEntries env L u).head?) := by
  have hchar := getSessionInfo_sessions env L u hp hok
  refine ⟨hchar, ?_, ?_⟩
  · rintro ⟨e, he, hact⟩
    have hsome : ((userEntries env L u).find? (fun e => e.isActive)).isSome := by
      rw [List.find?_isSome]
      exact ⟨e, he, hact⟩
    obtain ⟨e', he'⟩ := Option.isSome_iff_exists.mp hsome
    refine ⟨e', ?_, List.find?_some he'⟩
    rw [hchar]
    simp [preferredOf, he']
  · intro hall
    have hnone : (userEntries env L u).find? (fun e => e.isActive) = none := by
      rw [List.find?_eq_none]
      intro x hx
      simp [hall x hx]
    rw [hchar]
    simp [preferredOf, hnone]

theorem claim_C1_witness :
    mapGet (_getSessionInfo envC1).sessions "a" =
        preferredOf (userEntries envC1 exSessionsC1 "a") ∧
      mapGet (_getSessionInfo envC1).sessions "a" =
        some { sessionId := "s2", seat := "seat0", sessionClass := "user",
               isActive := true } ∧
      mapGet (_getSessionInfo envC1).sessions "b" =
        some { sessionId := "s3", seat := "seat1", sessionClass := "user",
               isActive := false } :=
  ⟨(claim_C1_session_reduction envC1 exSessionsC1 "a" rfl rfl).1,
    by decide, by decide⟩

/-- C10: a `user`-class session whose `Active` property cannot be read is
recorded with `isActive = false`, is never dropped from the per-user
reduction, and still becomes the preferred session when it is the first
`user`-class session and no session of that user is active. -/
theorem claim_C10_unreadable_active (env : DBusEnv) (L : List RawSession)
    (u : String) (s : RawSession) (hp : env.managerProxy = true)
    (hok : env.listSessionsResult = Except.ok L) (hs : s ∈ L)
    (hcls : isUserClassSession env s = true) (hu : s.userName = u)
    (hactive : _getSessionActiveState env s.sessionPath = none) :
    (entryOf env s).isActive = false ∧
      mapGet (_getSessionInfo env).sessions u ≠ none ∧
      ((∀ e ∈ userEntries env L u, e.isActive = false) →
        (userEntries env L u).head? = some (entryOf env s) →
        mapGet (_getSessionInfo env).sessions u = some (entryOf env s)) := by
  have hchar := getSessionInfo_sessions env L u hp hok
  have hmem : entryOf env s ∈ userEntries env L u := by
    unfold userEntries
    refine List.mem_map_of_mem (entryOf env) ?_
    rw [List.mem_filter]
    exact ⟨hs, by simp [hcls, hu]⟩
  refine ⟨by simp [entryOf, hactive], ?_, ?_⟩
  · rw [hchar]
    intro hnone
    rw [preferredOf_eq_none] at hnone
    rw [hnone] at hmem
    cases hmem
  · intro hall hhead
    have hnone : (userEntries env L u).find? (fun e => e.isActive) = none := by
      rw [List.find?_eq_none]
      intro x hx
      simp [hall x hx]
    rw [hchar]
    simp [preferredOf, hnone, hhead]

theorem claim_C10_witness :
    (entryOf envC10 exSessionC10).isActive = false ∧
      mapGet (_getSessionInfo envC10).sessions "carol" =
        some (entryOf envC10 exSessionC10) :=
  have h := claim_C10_unreadable_active envC10 [exSessionC10] "carol"
    exSessionC10 rfl rfl (by decide) (by decide) rfl (by decide)
  ⟨h.1, h.2.2 (by decide) (by decide)⟩

/-- C7: error absorption.  `_activateUserSession` returns `true` exactly
when a preferred session was found, the manager proxy exists, and the
`ActivateSession` call succeeds — every failure yields `false`; and
`_getSessionInfo` yields empty collections when the proxy is missing or
`ListSessions` throws.  Both are total functions: no exception escapes. -/
theorem claim_C7_error_absorption (env : DBusEnv) (username : String) :
    ((_activateUserSession env username).1 = true ↔
      ∃ sd, mapGet (_getSessionInfo env).sessions username = some sd ∧
        env.managerProxy = true ∧ env.activateOk sd.sessionId = true) ∧
      (env.managerProxy = false →
        _getSessionInfo env = { loggedInUsers := [], sessions := [] }) ∧
      (∀ e, env.listSessionsResult = Except.error e →
        _getSessionInfo env = { loggedInUsers := [], sessions := [] }) := by
  refine ⟨?_, ?_, ?_⟩
  · cases hm : mapGet (_getSessionInfo env).sessions username with
    | none =>
      have hstep : _activateUserSession env username = (false, 0) := by
        unfold _activateUserSession
        rw [hm]
      rw [hstep]
      constructor
      · intro h
        simp at h
      · rintro ⟨sd, hsd, _, _⟩
        cases hsd
    | some sd =>
      by_cases hp : env.managerProxy = true
      · have hstep : _activateUserSession env username =
            (env.activateOk sd.sessionId, 1) := by
          unfold _activateUserSession
          rw [hm]
          simp [hp]
        rw [hstep]
        constructor
        · intro h
          exact ⟨sd, rfl, hp, h⟩
        · rintro ⟨sd', hsd', _, hact⟩
          injection hsd' with h
          rw [h]
          exact hact
      · have hp' : env.managerProxy = false := by simpa using hp
        have hempty : _getSessionInfo env =
            { loggedInUsers := [], sessions := [] } := by
          simp [_getSessionInfo, hp']
        rw [hempty] at hm
        simp [mapGet] at hm
  · intro h
    simp [_getSessionInfo, h]
  · intro e h
    unfold _getSessionInfo
    rw [h]
    cases hmp : env.managerProxy <;> simp

theorem claim_C7_witness :
    _getSessionInfo envC7 = { loggedInUsers := [], sessions := [] } ∧
      (_activateUserSession envC7 "bob").1 = false :=
  ⟨(claim_C7_error_absorption envC7 "bob").2.2 () rfl, by decide⟩

/-- C2: postcondition of user selection.  Clicking the current user is a
no-op that performs no activation call and no greeter handoff; otherwise
the preferred session is looked up through a fresh `_getSessionInfo`
query, and a missing session or a failed activation yields
`fallbackToGreeter` with exactly one `_gotoLoginWindow` invocation, while
a successful activation yields `activated` with none. -/
theorem claim_C2_select_user (env : DBusEnv) (currentUserName username : String)
    (hu : ¬username = "") :
    (username = currentUserName →
      _activateUser env currentUserName username =
        { action := .noop, activateCalls := 0, greeterHandoffs := 0 }) ∧
      (¬username = currentUserName →
        mapGet (_getSessionInfo env).sessions username = none →
        _activateUser env currentUserName username =
          { action := .fallbackToGreeter, activateCalls := 0,
            greeterHandoffs := 1 }) ∧
      (¬username = currentUserName → ∀ sd,
        mapGet (_getSessionInfo env).sessions username = some sd →
        env.activateOk sd.sessionId = false →
        _activateUser env currentUserName username =
          { action := .fallbackToGreeter, activateCalls := 1,
            greeterHandoffs := 1 }) ∧
      (¬username = currentUserName → ∀ sd,
        mapGet (_getSessionInfo env).sessions username = some sd →
        env.activateOk sd.sessionId = true →
        _activateUser env currentUserName username =
          { action := .activated, activateCalls := 1, greeterHandoffs := 0 }) := by
  have hproxy : ∀ sd, mapGet (_getSessionInfo env).sessions username = some sd →
      env.managerProxy = true := by
    intro sd hsd
    by_contra hp
    have hp' : env.managerProxy = false := by simpa using hp
    have hempty : _getSessionInfo env =
        { loggedInUsers := [], sessions := [] } := by
      simp [_getSessionInfo, hp']
    rw [hempty] at hsd
    simp [mapGet] at hsd
  refine ⟨?_, ?_, ?_, ?_⟩
  · intro hcur
    unfold _activateUser
    rw [if_neg hu, if_pos hcur]
  · intro hncur hnone
    have hr : _activateUserSession env username = (false, 0) := by
      unfold _activateUserSession
      rw [hnone]
    simp [_activateUser, if_neg hu, if_neg hncur, hr]
  · intro hncur sd hsd hfail
    have hr : _activateUserSession env username = (false, 1) := by
      unfold _activateUserSession
      rw [hsd]
      simp [hproxy sd hsd, hfail]
    simp [_activateUser, if_neg hu, if_neg hncur, hr]
  · intro hncur sd hsd hok
    have hr : _activateUserSession env username = (true, 1) := by
      unfold _activateUserSession
      rw [hsd]
      simp [hproxy sd hsd, hok]
    simp [_activateUser, if_neg hu, if_neg hncur, hr]

theorem claim_C2_witness :
    _activateUser envC2 "alice" "bob" =
        { action := .fallbackToGreeter, activateCalls := 0,
          greeterHandoffs := 1 } ∧
      _activateUser envC2 "alice" "alice" =
        { action := .noop, activateCalls := 0, greeterHandoffs := 0 } :=
  ⟨(claim_C2_select_user envC2 "alice" "bob" (by decide)).2.1 (by decide)
      (by decide),
    (claim_C2_select_user envC2 "alice" "alice" (by decide)).1 rfl⟩

def c4Session : RawSession :=
  { sessionId := "g1", userName := "alice", seat := "seat0",
    sessionPath := "/org/freedesktop/login1/session/_41" }

/-- Environment with a single greeter-class session owned by `alice`. -/
def envC4 : DBusEnv :=
  { managerProxy := true
    listSessionsResult := Except.ok [c4Session]
    sessionClassProp := fun _ => some "greeter"
    sessionActiveProp := fun _ => some true
    activateOk := fun _ => false }

def aliceC4 : AccountRecord :=
  { is_loaded := true, uid := 1000, username := "alice", realName := "Alice",
    system_account := false }

/-- C4 counterexample: with only a greeter-class session for `alice`, the
rendered row marks her as signed in even though she has zero `user`-class
sessions, refuting the claim that non-`user` classes never confer
logged-in status on the rendered row. -/
theorem claim_C4_counterexample :
    (_createUserWidget aliceC4 "root" (_getSessionInfo envC4)).isSignedIn = true ∧
      userEntries envC4 [c4Session] "alice" = [] ∧
      mapGet (_getSessionInfo envC4).sessions "alice" = none :=
  ⟨by decide, by decide, by decide⟩

/-- C4 (amended): the rendered row marks a user as logged in iff the
username owns at least one listed session of any class; the `user`-class
restriction governs only the `sessions` map used for activation and the
preferred session, not the signed-in marker. -/
theorem claim_C4_logged_in_marker (env : DBusEnv) (L : List RawSession)
    (user : AccountRecord) (currentUserName : String)
    (hp : env.managerProxy = true)
    (hok : env.listSessionsResult = Except.ok L) :
    (_createUserWidget user currentUserName (_getSessionInfo env)).isSignedIn =
        true ↔
      (¬user.username = "" ∧ ∃ s ∈ L, s.userName = user.username) := by
  have h := getSessionInfo_logged env L user.username hp hok
  simp only [_createUserWidget, decide_eq_true_eq]
  exact h

theorem claim_C4_witness :
    (_createUserWidget aliceC4 "root" (_getSessionInfo envC4)).isSignedIn =
      true :=
  (claim_C4_logged_in_marker envC4 [c4Session] aliceC4 "root" rfl rfl).mpr
    (by decide)

/-- C5: over loaded, named records, `countRealUsers` is exactly the number
of records with `uid ≥ MINIMUM_VISIBLE_UID` and `system_account` unset;
an absent or not-yet-loaded manager yields 0. -/
theorem claim_C5_count_real_users (m : UserManager)
    (hwf : ∀ u ∈ m.users, u.is_loaded = true ∧ ¬u.username = "") :
    countRealUsers none = 0 ∧
      (m.is_loaded = false → countRealUsers (some m) = 0) ∧
      (m.is_loaded = true → countRealUsers (some m) =
        (m.users.filter (fun u =>
          decide (MINIMUM_VISIBLE_UID ≤ u.uid) && !u.system_account)).length) := by
  refine ⟨rfl, ?_, ?_⟩
  · intro h
    simp [countRealUsers, h]
  · intro h
    simp only [countRealUsers, h, Bool.not_true, Bool.false_eq_true, if_false]
    congr 1
    apply List.filter_congr
    intro u hu
    have hwu := hwf u hu
    simp [isCountedRealUser, hwu.1, hwu.2]

def mgrC5 : UserManager :=
  { is_loaded := true
    users :=
      [{ is_loaded := true, uid := 1000, username := "alice",
         realName := "Alice", system_account := false },
       { is_loaded := true, uid := 42, username := "daemon", realName := "",
         system_account := true }] }

theorem claim_C5_witness : countRealUsers (some mgrC5) = 1 := by
  have h := (claim_C5_count_real_users mgrC5 (by decide)).2.2 rfl
  rw [h]
  decide

def usersC3 : List AccountRecord :=
  [{ is_loaded := true, uid := 0, username := "root", realName := "root",
     system_account := true },
   { is_loaded := true, uid := 1000, username := "alice", realName := "Alice",
     system_account := false }]

/-- C3: a loaded record of the current user is always in the view model —
regardless of its uid or system-account flag — and the view model starts
with a current-user row; any other loaded, named record is visible iff its
uid is at least `MINIMUM_VISIBLE_UID` and it is not a system account. -/
theorem claim_C3_current_first_visibility (collate : String → String → Int)
    (userList : List AccountRecord) (currentUserName : String)
    (r : AccountRecord) (hr : r ∈ userList) (hld : r.is_loaded = true)
    (hru : r.username = currentUserName) (hcur : ¬currentUserName = "") :
    r ∈ _collectVisibleUsers collate userList currentUserName ∧
      (∃ x xs, _collectVisibleUsers collate userList currentUserName = x :: xs ∧
        x.username = currentUserName) ∧
      (∀ s : AccountRecord, s.is_loaded = true → ¬s.username = "" →
        ¬s.username = currentUserName →
        (s ∈ _collectVisibleUsers collate userList currentUserName ↔
          s ∈ userList ∧ MINIMUM_VISIBLE_UID ≤ s.uid ∧
            s.system_account = false)) := by
  have hrvis : isVisibleUser r currentUserName = true := by
    simp [isVisibleUser, hld, hru, hcur]
  have hrf : r ∈ _visibleFiltered userList currentUserName := by
    rw [_visibleFiltered, List.mem_filter]
    exact ⟨hr, hrvis⟩
  refine ⟨?_, ?_, ?_⟩
  · unfold _collectVisibleUsers
    exact (mem_stableSort _ r _).mpr hrf
  · unfold _collectVisibleUsers
    exact stableSort_head_current collate currentUserName _ ⟨r, hrf, hru⟩
  · intro s hsld hsne hsnc
    unfold _collectVisibleUsers
    rw [mem_stableSort]
    unfold _visibleFiltered
    rw [List.mem_filter]
    have hvis : isVisibleUser s currentUserName =
        (decide (MINIMUM_VISIBLE_UID ≤ s.uid) && !s.system_account) := by
      simp [isVisibleUser, hsld, hsne, hsnc]
    rw [hvis]
    constructor
    · rintro ⟨hsl, hp⟩
      rw [Bool.and_eq_true, decide_eq_true_eq, Bool.not_eq_true'] at hp
      exact ⟨hsl, hp.1, hp.2⟩
    · rintro ⟨hsl, h1, h2⟩
      refine ⟨hsl, ?_⟩
      rw [Bool.and_eq_true, decide_eq_true_eq, Bool.not_eq_true']
      exact ⟨h1, h2⟩

theorem claim_C3_witness :
    ({ is_loaded := true, uid := 0, username := "root", realName := "root",
       system_account := true } : AccountRecord) ∈
        _collectVisibleUsers (fun _ _ => 0) usersC3 "root" ∧
      (∃ x xs, _collectVisibleUsers (fun _ _ => 0) usersC3 "root" = x :: xs ∧
        x.username = "root") :=
  have h := claim_C3_current_first_visibility (fun _ _ => 0) usersC3 "root"
    { is_loaded := true, uid := 0, username := "root", realName := "root",
      system_account := true } (by decide) rfl rfl (by decide)
  ⟨h.1, h.2.1⟩

/-- C8: for any transitive and total collation, the view model is ordered
among non-current rows by collation of display names ascending, and the
sort is stable: non-current rows with equal display names keep their
pre-sort (filter) order. -/
theorem claim_C8_sort_order (collate : String → String → Int)
    (userList : List AccountRecord) (currentUserName : String)
    (htrans : ∀ x y z, collate x y ≤ 0 → collate y z ≤ 0 → collate x z ≤ 0)
    (htotal : ∀ x y, collate x y ≤ 0 ∨ collate y x ≤ 0) :
    (∀ a b,
      [a, b].Sublist (_collectVisibleUsers collate userList currentUserName) →
      ¬a.username = currentUserName → ¬b.username = currentUserName →
      collate (displayNameOf a) (displayNameOf b) ≤ 0) ∧
      (∀ a b, [a, b].Sublist (_visibleFiltered userList currentUserName) →
        ¬a.username = currentUserName → ¬b.username = currentUserName →
        collate (displayNameOf a) (displayNameOf b) = 0 →
        [a, b].Sublist
          (_collectVisibleUsers collate userList currentUserName)) := by
  constructor
  · intro a b hsub ha hb
    have hpw := pairwise_stableSort
      (fun x y => _compareUsers collate x y currentUserName)
      (fun x y z => compareUsers_le_trans collate currentUserName htrans x y z)
      (fun x y => compareUsers_le_total collate currentUserName htotal x y)
      (_visibleFiltered userList currentUserName)
    unfold _collectVisibleUsers at hsub
    have hp2 : ([a, b] : List AccountRecord).Pairwise
        (fun x y => _compareUsers collate x y currentUserName ≤ 0) :=
      hpw.sublist hsub
    have hab := (List.pairwise_cons.mp hp2).1 b (by simp)
    rw [compareUsers_noncur_noncur collate currentUserName a b ha hb] at hab
    exact hab
  · intro a b hsub ha hb heq
    have hab : _compareUsers collate a b currentUserName ≤ 0 := by
      rw [compareUsers_noncur_noncur collate currentUserName a b ha hb, heq]
    unfold _collectVisibleUsers
    exact stableSort_stable _ a b _ hab hsub

def recBobC8 : AccountRecord :=
  { is_loaded := true, uid := 1000, username := "bob", realName := "Bob",
    system_account := false }

def recAnnC8 : AccountRecord :=
  { is_loaded := true, uid := 1001, username := "ann", realName := "Ann",
    system_account := false }

def usersC8 : List AccountRecord := [recBobC8, recAnnC8]

theorem claim_C8_witness :
    [recBobC8, recAnnC8].Sublist
      (_collectVisibleUsers (fun _ _ => 0) usersC8 "root") := by
  have h := (claim_C8_sort_order (fun _ _ => 0) usersC8 "root"
    (fun _ _ _ _ _ => Int.le_refl 0) (fun _ _ => Or.inl (Int.le_refl 0))).2
  refine h recBobC8 recAnnC8 ?_ (by decide) (by decide) rfl
  have hfil : _visibleFiltered usersC8 "root" = [recBobC8, recAnnC8] := by
    decide
  rw [hfil]

/-- C6: the visibility state machine.  Starting Hidden, after any event
sequence the control is mounted iff the last observed real-user count
exceeds 1; every event performs exactly one action, a mount exactly on an
upward crossing of the threshold, an unmount exactly on a downward
crossing, and no action when the threshold is not crossed. -/
theorem claim_C6_visibility :
    (∀ evs, (runVisibility evs).1 =
      match evs.getLast? with
      | none => false
      | some ev => decide (countRealUsers ev > 1)) ∧
      (∀ evs, (runVisibility evs).2.length = evs.length) ∧
      (∀ mgr mounted,
        ((_updateVisibility mgr mounted).2 = MountAction.mount ↔
          mounted = false ∧ countRealUsers mgr > 1) ∧
        ((_updateVisibility mgr mounted).2 = MountAction.unmount ↔
          mounted = true ∧ ¬countRealUsers mgr > 1) ∧
        (mounted = decide (countRealUsers mgr > 1) →
          (_updateVisibility mgr mounted).2 = MountAction.keep)) := by
  refine ⟨?_, ?_, ?_⟩
  · intro evs
    induction evs using List.reverseRecOn with
    | nil => rfl
    | append_singleton evs ev ih =>
      rw [runVisibility_append evs ev, List.getLast?_concat]
  · intro evs
    induction evs using List.reverseRecOn with
    | nil => rfl
    | append_singleton evs ev ih =>
      rw [runVisibility_actions_append evs ev]
      simp [ih]
  · intro mgr mounted
    by_cases h : countRealUsers mgr > 1 <;> cases mounted <;>
      simp [_updateVisibility, h]

def mgrOneC6 : UserManager :=
  { is_loaded := true
    users := [{ is_loaded := true, uid := 1000, username := "alice",
                realName := "Alice", system_account := false }] }

def mgrTwoC6 : UserManager :=
  { is_loaded := true
    users := [{ is_loaded := true, uid := 1000, username := "alice",
                realName := "Alice", system_account := false },
              { is_loaded := true, uid := 1001, username := "bob",
                realName := "Bob", system_account := false }] }

theorem claim_C6_witness :
    (runVisibility [some mgrOneC6, some mgrTwoC6]).1 = true ∧
      (_updateVisibility (some mgrTwoC6) false).2 = MountAction.mount ∧
      (_updateVisibility (some mgrTwoC6) true).2 = MountAction.keep ∧
      (_updateVisibility (some mgrOneC6) true).2 = MountAction.unmount := by
  refine ⟨?_, ?_, ?_, ?_⟩
  · rw [claim_C6_visibility.1 [some mgrOneC6, some mgrTwoC6]]
    decide
  · exact ((claim_C6_visibility.2.2 (some mgrTwoC6) false).1).mpr
      ⟨rfl, by decide⟩
  · exact (claim_C6_visibility.2.2 (some mgrTwoC6) true).2.2 (by decide)
  · exact ((claim_C6_visibility.2.2 (some mgrOneC6) true).2.1).mpr
      ⟨rfl, by decide⟩

/-- C9: at every point at most one greeter-handoff continuation is
pending; scheduling a new one first cancels any previously scheduled but
unfired continuation, leaving exactly the fresh one; destroying the
component cancels any pending continuation, and a repaint completing after
teardown fires nothing. -/
theorem claim_C9_handoff_scheduling :
    (∀ evs, (runRepaint evs).scheduledFuncs.length ≤ 1) ∧
      (∀ evs, (runRepaint evs).destroyed = true →
        (runRepaint evs).scheduledFuncs = []) ∧
      (∀ evs, (runRepaint evs).destroyed = true →
        fireRepaint (runRepaint evs) = runRepaint evs) ∧
      (∀ evs, (runRepaint evs).destroyed = false →
        (_gotoLoginWindow (runRepaint evs)).scheduledFuncs =
          [(runRepaint evs).nextId]) := by
  refine ⟨?_, ?_, ?_, ?_⟩
  · intro evs
    rw [(repaintInv_run evs).1]
    by_cases hid : (runRepaint evs).repaintFuncId = 0 <;> simp [hid]
  · intro evs hd
    rw [(repaintInv_run evs).1, if_pos ((repaintInv_run evs).2.1 hd)]
  · intro evs hd
    have hs : (runRepaint evs).scheduledFuncs = [] := by
      rw [(repaintInv_run evs).1, if_pos ((repaintInv_run evs).2.1 hd)]
    unfold fireRepaint
    rw [hs]
  · intro evs hd
    unfold _gotoLoginWindow
    rw [if_neg (by simp [hd])]
    simp only [clearRepaintFunc_scheduled (runRepaint evs) (repaintInv_run evs),
      clearRepaintFunc_nextId, List.nil_append]

theorem claim_C9_witness :
    (runRepaint [RepaintEvent.goto, RepaintEvent.destroy]).scheduledFuncs =
        [] ∧
      fireRepaint (runRepaint [RepaintEvent.goto, RepaintEvent.destroy]) =
        runRepaint [RepaintEvent.goto, RepaintEvent.destroy] :=
  ⟨claim_C9_handoff_scheduling.2.1 _ (by decide),
    claim_C9_handoff_scheduling.2.2.1 _ (by decide)⟩
